import Mathlib

/-!
Shallow embedding of the `signal-polyfill` reactive engine
(`src/index.ts`): the revision clock, the tracking context, `State`,
`Computed`, `Watcher`, and the `untrack` helper.

Values held in `State` signals are modelled as `Int`.  The JavaScript
`undefined` value (the `lastValue` field of a `Computed` that was never
assigned, `private declare lastValue`) is modelled as `Option.none`,
and arithmetic on `undefined` propagates `none` (mirroring `NaN`
propagation).  The user-supplied derivation function of a `Computed`
is modelled by a small expression language `Exp` whose evaluation
threads the global engine environment `Env`; a fuel parameter bounds
recursion depth (the JavaScript call stack).  Each `Computed` carries
a ghost `invokeCount` field counting invocations of its derivation
function — the "spy" that the specification's testable properties use;
it has no influence on behaviour.

The `watched`/`unwatched` hooks of `SignalOptions` are the default
no-ops: no claim under verification configures them.  A `Watcher`'s
notify callback must not read or write signals (a documented hard
contract), so it is modelled as a counter increment (`notifyCount`),
again exactly the spy the specification prescribes.  Membership in the
global `watchers` registry is the `registered` flag.
-/

namespace SignalPolyfill

/-- Trackable identifier: index of a `State` or of a `Computed`. -/
inductive TId where
  | st : Nat → TId
  | cp : Nat → TId
  deriving DecidableEq

/-- Outcome of evaluating a derivation: a user exception (`throw` in the
derivation body) or fuel exhaustion (models JavaScript stack overflow;
never reached in the scenarios below). -/
inductive Err where
  | thrown
  | fuelOut
  deriving DecidableEq

/-- Expression language for derivation bodies of `Computed` signals:
literals, signal reads, writes (`State.set` with a literal value, which
returns `undefined` like the JavaScript method), sequencing, pure
function application, `Signal.subtle.untrack`, and `throw`. -/
inductive Exp where
  | lit : Int → Exp
  | readState : Nat → Exp
  | readComputed : Nat → Exp
  | app1 : (Int → Int) → Exp → Exp
  | app2 : (Int → Int → Int) → Exp → Exp → Exp
  | seqE : Exp → Exp → Exp
  | writeState : Nat → Int → Exp
  | untrackE : Exp → Exp
  | throwE : Exp

/-- A `State` signal: stored value, `equals` comparator (default is
`===`, i.e. `Int` equality), the two revision stamps `$LAST_REVISION`
and `$LATEST_REVISION`, and the `$COMPUTED_REFS` reverse-edge set. -/
structure StateSig where
  value : Int
  equals : Int → Int → Bool
  lastRevision : Nat
  latestRevision : Nat
  computedRefs : List Nat

/-- A `Computed` signal: derivation body, memoized `lastValue`
(`none` until first assigned), `lastTracked` dependency list, revision
stamps, reverse edges, and the ghost invocation counter. -/
structure CompSig where
  body : Exp
  lastValue : Option Int
  lastTracked : List TId
  lastRevision : Nat
  latestRevision : Nat
  computedRefs : List Nat
  invokeCount : Nat

/-- A `Watcher`: its watched set, whether it is currently in the global
`watchers` registry, and the ghost notify-invocation counter. -/
structure WatcherSig where
  watched : List TId
  registered : Bool
  notifyCount : Nat

/-- The global engine environment: the module-level mutable variables of
`src/index.ts` plus the heaps of constructed signals and watchers. -/
structure Env where
  consumptionEnabled : Bool
  currentRevision : Nat
  currentComputation : Option (List TId)
  currentComputedRef : Option Nat
  states : List StateSig
  comps : List CompSig
  watchers : List WatcherSig

/-- Update the element at an index of a list, when present. -/
def updAt {α : Type} : List α → Nat → (α → α) → List α
  | [], _, _ => []
  | x :: xs, 0, f => f x :: xs
  | x :: xs, n + 1, f => x :: updAt xs n f

/-- `tracked[$LATEST_REVISION]` of a trackable (0 when the id is unused). -/
def latestRevOf (env : Env) : TId → Nat
  | .st i => ((env.states.get? i).map (·.latestRevision)).getD 0
  | .cp j => ((env.comps.get? j).map (·.latestRevision)).getD 0

/-- `tracked[$LAST_REVISION]` of a trackable (0 when the id is unused). -/
def lastRevOf (env : Env) : TId → Nat
  | .st i => ((env.states.get? i).map (·.lastRevision)).getD 0
  | .cp j => ((env.comps.get? j).map (·.lastRevision)).getD 0

/-- Apply `f` to the state signal at index `i`. -/
def updState (env : Env) (i : Nat) (f : StateSig → StateSig) : Env :=
  { env with states := updAt env.states i f }

/-- Apply `f` to the computed signal at index `j`. -/
def updComp (env : Env) (j : Nat) (f : CompSig → CompSig) : Env :=
  { env with comps := updAt env.comps j f }

/-- Apply `f` to the watcher at index `wi`. -/
def updWatcher (env : Env) (wi : Nat) (f : WatcherSig → WatcherSig) : Env :=
  { env with watchers := updAt env.watchers wi f }

/-- `tracked[$LAST_REVISION] = tracked[$LATEST_REVISION]`. -/
def setLastToLatest (env : Env) : TId → Env
  | .st i => updState env i (fun s => { s with lastRevision := s.latestRevision })
  | .cp j => updComp env j (fun c => { c with lastRevision := c.latestRevision })

/-- `tracked[$LATEST_REVISION] = r`. -/
def setLatest (env : Env) (r : Nat) : TId → Env
  | .st i => updState env i (fun s => { s with latestRevision := r })
  | .cp j => updComp env j (fun c => { c with latestRevision := r })

/-- JavaScript `Set.add`: append unless already present (insertion order). -/
def addId (l : List TId) (t : TId) : List TId :=
  if t ∈ l then l else l ++ [t]

/-- Add every element of `ts` to the set `l`, in order. -/
def addAll (l : List TId) (ts : List TId) : List TId :=
  ts.foldl addId l

/-- `consumeTracked` (index.ts lines 41-44): when consumption is enabled,
mark the trackable freshly observed; record it into the current
computation if one is active.  NOTE: as in the source, the recording is
not guarded by `consumptionEnabled`. -/
def consumeTracked (t : TId) (env : Env) : Env :=
  let env1 := if env.consumptionEnabled then setLastToLatest env t else env
  match env1.currentComputation with
  | some l => { env1 with currentComputation := some (addId l t) }
  | none => env1

/-- `notifyWatchers` (lines 59-61): invoke the notify callback of every
watcher in the registry, modelled as incrementing its counter. -/
def notifyWatchers (env : Env) : Env :=
  { env with watchers := env.watchers.map (fun w =>
      if w.registered then { w with notifyCount := w.notifyCount + 1 } else w) }

/-- `dirtyTracked` (lines 46-49): bump the clock, stamp the trackable
with the new revision, notify all watchers.  There is no check against
the current computation (contrast the drafts `original.js`/`part_001`,
whose `dirtyTag` throws when the tag was consumed). -/
def dirtyTracked (t : TId) (env : Env) : Env :=
  let r := env.currentRevision + 1
  notifyWatchers { setLatest env r t with currentRevision := r }

/-- `isTrackedDirty` (lines 51-53): `latest > last`. -/
def isTrackedDirty (env : Env) (t : TId) : Bool :=
  decide (lastRevOf env t < latestRevOf env t)

/-- `getMaxRevision` (lines 55-57): `Math.max(0, ...latest revisions)`. -/
def getMaxRevision (env : Env) (l : List TId) : Nat :=
  l.foldl (fun m t => max m (latestRevOf env t)) 0

/-- `State.prototype.get` (lines 82-85). -/
def stateGet (i : Nat) (env : Env) : Option Int × Env :=
  match env.states.get? i with
  | none => (none, env)
  | some s => (some s.value, consumeTracked (.st i) env)

/-- `State.prototype.set` (lines 76-80): suppressed when `equals` holds,
otherwise store and dirty.  No self-referential-write check exists. -/
def stateSet (i : Nat) (v : Int) (env : Env) : Env :=
  match env.states.get? i with
  | none => env
  | some s =>
    if s.equals s.value v then env
    else dirtyTracked (.st i) (updState env i (fun s2 => { s2 with value := v }))

/-- `tracked[$COMPUTED_REFS].delete(j)`. -/
def removeRef (j : Nat) (env : Env) : TId → Env
  | .st i => updState env i (fun s => { s with computedRefs := s.computedRefs.erase j })
  | .cp k => updComp env k (fun c => { c with computedRefs := c.computedRefs.erase j })

/-- Drop `j` from the reverse edges of each trackable in `l` (line 125). -/
def removeRefs (l : List TId) (j : Nat) (env : Env) : Env :=
  l.foldl (fun e t => removeRef j e t) env

/-- JavaScript `Set.add` on a list of `Nat`. -/
def addNat (l : List Nat) (j : Nat) : List Nat :=
  if j ∈ l then l else l ++ [j]

/-- `tracked[$COMPUTED_REFS].add(j)`. -/
def addRef (j : Nat) (env : Env) : TId → Env
  | .st i => updState env i (fun s => { s with computedRefs := addNat s.computedRefs j })
  | .cp k => updComp env k (fun c => { c with computedRefs := addNat c.computedRefs j })

/-- Register `j` as reverse edge of each trackable in `l` (line 138). -/
def addRefs (l : List TId) (j : Nat) (env : Env) : Env :=
  l.foldl (fun e t => addRef j e t) env

/-- Ghost: count one invocation of computed `j`'s derivation function. -/
def bumpInvoke (j : Nat) (env : Env) : Env :=
  updComp env j (fun c => { c with invokeCount := c.invokeCount + 1 })

/-- `Computed.prototype.get` (lines 110-145), parametric in the
evaluator used for the derivation body.
Fresh branch (111-119): when `lastTracked` is non-empty and this node's
latest revision is at least the maximum over `lastTracked`, re-record
the old sources into any enclosing computation, consume `this`, and
return the cached `lastValue`.
Stale branch (121-144): push a fresh tracking context, drop the old
reverse edges, invoke the derivation, and in the `finally` block
capture the new `lastTracked`, dirty `this` (bumping the clock and
notifying watchers), consume `this`, merge the inner computation into
the enclosing one, add the new reverse edges, and restore the context
(the source resets `currentComputedRef` to null, not to its previous
value).  The result (or the thrown error) propagates to the caller. -/
def computedGet (recur : Exp → Env → Except Err (Option Int) × Env)
    (j : Nat) (env : Env) : Except Err (Option Int) × Env :=
  match env.comps.get? j with
  | none => (.ok none, env)
  | some c =>
    if c.lastTracked ≠ [] ∧ getMaxRevision env c.lastTracked ≤ c.latestRevision then
      let env1 :=
        match env.currentComputation with
        | some l =>
          if c.lastTracked ≠ [] then
            { env with currentComputation := some (addAll l c.lastTracked) }
          else env
        | none => env
      let env2 := consumeTracked (.cp j) env1
      (.ok c.lastValue, env2)
    else
      let prev := env.currentComputation
      let env1 := { env with currentComputation := some [], currentComputedRef := some j }
      let env2 := removeRefs c.lastTracked j env1
      let env3 := bumpInvoke j env2
      match recur c.body env3 with
      | (res, env4) =>
        let newTracked := env4.currentComputation.getD []
        let env5 := updComp env4 j (fun c2 =>
          match res with
          | .ok v => { c2 with lastValue := v, lastTracked := newTracked }
          | .error _ => { c2 with lastTracked := newTracked })
        let env6 := dirtyTracked (.cp j) env5
        let env7 := consumeTracked (.cp j) env6
        let merged :=
          match prev with
          | some pl => some (addAll pl (env7.currentComputation.getD []))
          | none => none
        let env8 := addRefs newTracked j env7
        (res, { env8 with currentComputation := merged, currentComputedRef := none })

/-- Fuel-indexed evaluator for derivation bodies.  `untrackE` mirrors
`untrack` (lines 151-158): disable consumption, run, and in the
`finally` block set the flag back to `true` unconditionally. -/
def evalStep : Nat → Exp → Env → Except Err (Option Int) × Env
  | 0, _, env => (.error .fuelOut, env)
  | fuel + 1, ex, env =>
    match ex with
    | .lit n => (.ok (some n), env)
    | .readState i =>
      match stateGet i env with
      | (v, env1) => (.ok v, env1)
    | .readComputed j => computedGet (fun e2 env2 => evalStep fuel e2 env2) j env
    | .app1 f e1 =>
      match evalStep fuel e1 env with
      | (.ok v, env1) => (.ok (v.map f), env1)
      | (.error er, env1) => (.error er, env1)
    | .app2 f e1 e2 =>
      match evalStep fuel e1 env with
      | (.ok v1, env1) =>
        match evalStep fuel e2 env1 with
        | (.ok v2, env2) =>
          (.ok (match v1, v2 with
                | some a, some b => some (f a b)
                | _, _ => none), env2)
        | (.error er, env2) => (.error er, env2)
      | (.error er, env1) => (.error er, env1)
    | .seqE e1 e2 =>
      match evalStep fuel e1 env with
      | (.ok _, env1) => evalStep fuel e2 env1
      | (.error er, env1) => (.error er, env1)
    | .writeState i v => (.ok none, stateSet i v env)
    | .untrackE e1 =>
      match evalStep fuel e1 { env with consumptionEnabled := false } with
      | (r, env1) => (r, { env1 with consumptionEnabled := true })
    | .throwE => (.error .thrown, env)

instance exceptDecEq {ε α : Type} [DecidableEq ε] [DecidableEq α] :
    DecidableEq (Except ε α) := fun x y =>
  match x, y with
  | .ok a, .ok b =>
    match decEq a b with
    | isTrue h => isTrue (h ▸ rfl)
    | isFalse h => isFalse fun hh => h (Except.ok.inj hh)
  | .ok _, .error _ => isFalse fun h => Except.noConfusion h
  | .error _, .ok _ => isFalse fun h => Except.noConfusion h
  | .error e, .error f =>
    match decEq e f with
    | isTrue h => isTrue (h ▸ rfl)
    | isFalse h => isFalse fun hh => h (Except.error.inj hh)

/-- A top-level `c.get()` call on computed `j`. -/
def computedGetTop (fuel : Nat) (j : Nat) (env : Env) : Except Err (Option Int) × Env :=
  computedGet (fun e2 env2 => evalStep fuel e2 env2) j env

/-- The initial module state: clock at 0, consumption enabled, no
computation in progress, empty heaps. -/
def Env.empty : Env :=
  { consumptionEnabled := true
    currentRevision := 0
    currentComputation := none
    currentComputedRef := none
    states := []
    comps := []
    watchers := [] }

/-- The default `equals` comparator (`t === t2`). -/
def defaultEquals : Int → Int → Bool := fun a b => a == b

/-- `new Signal.State(v)`: field initializer `[$LATEST_REVISION] =
++currentRevision` bumps the clock at construction. -/
def mkState (v : Int) (env : Env) : Env :=
  let s : StateSig :=
    { value := v, equals := defaultEquals, lastRevision := 0,
      latestRevision := env.currentRevision + 1, computedRefs := [] }
  { env with currentRevision := env.currentRevision + 1, states := env.states ++ [s] }

/-- `new Signal.Computed(body)`. -/
def mkComputed (b : Exp) (env : Env) : Env :=
  let c : CompSig :=
    { body := b, lastValue := none, lastTracked := [], lastRevision := 0,
      latestRevision := env.currentRevision + 1, computedRefs := [], invokeCount := 0 }
  { env with currentRevision := env.currentRevision + 1, comps := env.comps ++ [c] }

/-- `new Signal.subtle.Watcher(notify)`. -/
def mkWatcher (env : Env) : Env :=
  { env with watchers := env.watchers ++ [{ watched := [], registered := false, notifyCount := 0 }] }

/-- `Watcher.prototype.watch` (lines 218-224): add each watchable
(the `$WATCHED` hook is the default no-op), then join the registry if
the watched set is non-empty. -/
def watcherWatch (wi : Nat) (ts : List TId) (env : Env) : Env :=
  let env1 := ts.foldl (fun e t => updWatcher e wi (fun w => { w with watched := addId w.watched t })) env
  match env1.watchers.get? wi with
  | none => env1
  | some w =>
    if w.watched ≠ [] then updWatcher env1 wi (fun w2 => { w2 with registered := true })
    else env1

/-- `Watcher.prototype.unwatch` (lines 227-233). -/
def watcherUnwatch (wi : Nat) (ts : List TId) (env : Env) : Env :=
  let env1 := ts.foldl (fun e t => updWatcher e wi (fun w => { w with watched := w.watched.erase t })) env
  match env1.watchers.get? wi with
  | none => env1
  | some w =>
    if w.watched = [] then updWatcher env1 wi (fun w2 => { w2 with registered := false })
    else env1

/-- `Watcher.prototype.getPending` (lines 237-239):
`Array.from(this.watched).filter(isTrackedDirty)`. -/
def watcherGetPending (wi : Nat) (env : Env) : List TId :=
  ((env.watchers.get? wi).map (fun w => w.watched.filter (isTrackedDirty env))).getD []

/-- Invocation count of computed `j`'s derivation (the spy). -/
def invokeCountOf (env : Env) (j : Nat) : Nat :=
  ((env.comps.get? j).map (·.invokeCount)).getD 0

/-- Stored memo value of computed `j`. -/
def lastValueOf (env : Env) (j : Nat) : Option Int :=
  ((env.comps.get? j).map (·.lastValue)).getD none

/-- Last recorded dependency list of computed `j`. -/
def lastTrackedOf (env : Env) (j : Nat) : List TId :=
  ((env.comps.get? j).map (·.lastTracked)).getD []

/-- Current stored value of state `i`. -/
def stateValueOf (env : Env) (i : Nat) : Option Int :=
  (env.states.get? i).map (·.value)

/-- Notify-invocation count of watcher `wi` (the spy). -/
def notifyCountOf (env : Env) (wi : Nat) : Nat :=
  ((env.watchers.get? wi).map (·.notifyCount)).getD 0

/-- Whether watcher `wi` is in the global registry. -/
def registeredOf (env : Env) (wi : Nat) : Bool :=
  ((env.watchers.get? wi).map (·.registered)).getD false

/-!
Invariance machinery.  `wfEnv` is the global clock invariant (every
latest-revision stamp is at most the current revision); `Quiet`
describes steps that change neither any latest revision, nor the clock,
nor the watcher heap; `Pres` is the weaker property preserved by every
evaluation step (clock invariant preserved, notify counters monotone,
registry membership unchanged).
-/

/-- Every latest-revision stamp is at most the global clock. -/
def wfEnv (env : Env) : Prop :=
  ∀ t, latestRevOf env t ≤ env.currentRevision

theorem get?_updAt {α : Type} (l : List α) (i k : Nat) (f : α → α) :
    (updAt l i f).get? k = if i = k then (l.get? k).map f else l.get? k := by
  induction l generalizing i k with
  | nil => simp [updAt]
  | cons x xs ih =>
    cases i with
    | zero =>
      cases k with
      | zero => simp [updAt]
      | succ k2 => simp [updAt]
    | succ i2 =>
      cases k with
      | zero => simp [updAt]
      | succ k2 => simpa [updAt] using ih i2 k2

/-- A step is quiet when it leaves every latest revision, the clock and
the watcher heap untouched. -/
def Quiet (e1 e2 : Env) : Prop :=
  e2.currentRevision = e1.currentRevision ∧
  (∀ t, latestRevOf e2 t = latestRevOf e1 t) ∧
  e2.watchers = e1.watchers

theorem quiet_refl (e : Env) : Quiet e e := ⟨rfl, fun _ => rfl, rfl⟩

theorem quiet_trans {e1 e2 e3 : Env} (h1 : Quiet e1 e2) (h2 : Quiet e2 e3) : Quiet e1 e3 :=
  ⟨h2.1.trans h1.1, fun t => (h2.2.1 t).trans (h1.2.1 t), h2.2.2.trans h1.2.2⟩

theorem latestRevOf_updState (env : Env) (i : Nat) (f : StateSig → StateSig)
    (hf : ∀ s, (f s).latestRevision = s.latestRevision) (t : TId) :
    latestRevOf (updState env i f) t = latestRevOf env t := by
  cases t with
  | st k =>
    simp only [latestRevOf, updState, get?_updAt]
    split
    · cases env.states.get? k <;> simp [hf]
    · rfl
  | cp k => rfl

theorem latestRevOf_updComp (env : Env) (i : Nat) (f : CompSig → CompSig)
    (hf : ∀ c, (f c).latestRevision = c.latestRevision) (t : TId) :
    latestRevOf (updComp env i f) t = latestRevOf env t := by
  cases t with
  | st k => rfl
  | cp k =>
    simp only [latestRevOf, updComp, get?_updAt]
    split
    · cases env.comps.get? k <;> simp [hf]
    · rfl

theorem quiet_updState (env : Env) (i : Nat) (f : StateSig → StateSig)
    (hf : ∀ s, (f s).latestRevision = s.latestRevision) :
    Quiet env (updState env i f) :=
  ⟨rfl, latestRevOf_updState env i f hf, rfl⟩

theorem quiet_updComp (env : Env) (i : Nat) (f : CompSig → CompSig)
    (hf : ∀ c, (f c).latestRevision = c.latestRevision) :
    Quiet env (updComp env i f) :=
  ⟨rfl, latestRevOf_updComp env i f hf, rfl⟩

theorem quiet_setLastToLatest (env : Env) (t : TId) :
    Quiet env (setLastToLatest env t) := by
  cases t with
  | st i => exact quiet_updState env i _ (fun s => rfl)
  | cp j => exact quiet_updComp env j _ (fun c => rfl)

theorem latestRevOf_ctx (env : Env) (co : Option (List TId)) (t : TId) :
    latestRevOf { env with currentComputation := co } t = latestRevOf env t := by
  cases t <;> rfl

theorem quiet_consumeTracked (env : Env) (t : TId) :
    Quiet env (consumeTracked t env) := by
  unfold consumeTracked
  have h1 : Quiet env (if env.consumptionEnabled then setLastToLatest env t else env) := by
    split
    · exact quiet_setLastToLatest env t
    · exact quiet_refl env
  cases hc : (if env.consumptionEnabled then setLastToLatest env t else env).currentComputation with
  | some l =>
    simp only [hc]
    refine quiet_trans h1 ⟨rfl, fun u => latestRevOf_ctx _ _ u, rfl⟩
  | none => simpa only [hc] using h1

theorem quiet_stateGet (env : Env) (i : Nat) :
    Quiet env (stateGet i env).2 := by
  unfold stateGet
  cases env.states.get? i with
  | none => exact quiet_refl env
  | some s => exact quiet_consumeTracked env (.st i)

theorem quiet_removeRef (env : Env) (j : Nat) (t : TId) :
    Quiet env (removeRef j env t) := by
  cases t with
  | st i => exact quiet_updState env i _ (fun s => rfl)
  | cp k => exact quiet_updComp env k _ (fun c => rfl)

theorem quiet_addRef (env : Env) (j : Nat) (t : TId) :
    Quiet env (addRef j env t) := by
  cases t with
  | st i => exact quiet_updState env i _ (fun s => rfl)
  | cp k => exact quiet_updComp env k _ (fun c => rfl)

theorem quiet_foldl {β : Type} (step : Env → β → Env)
    (hstep : ∀ e b, Quiet e (step e b)) (l : List β) (env : Env) :
    Quiet env (l.foldl step env) := by
  induction l generalizing env with
  | nil => exact quiet_refl env
  | cons b bs ih => exact quiet_trans (hstep env b) (ih (step env b))

theorem quiet_removeRefs (env : Env) (l : List TId) (j : Nat) :
    Quiet env (removeRefs l j env) :=
  quiet_foldl _ (fun e t => quiet_removeRef e j t) l env

theorem quiet_addRefs (env : Env) (l : List TId) (j : Nat) :
    Quiet env (addRefs l j env) :=
  quiet_foldl _ (fun e t => quiet_addRef e j t) l env

theorem quiet_bumpInvoke (env : Env) (j : Nat) :
    Quiet env (bumpInvoke j env) :=
  quiet_updComp env j _ (fun _ => rfl)

/-- Evaluation-step preservation: the clock invariant survives, notify
counters never decrease, and registry membership is untouched. -/
def Pres (e1 e2 : Env) : Prop :=
  (wfEnv e1 → wfEnv e2) ∧
  (∀ i, notifyCountOf e1 i ≤ notifyCountOf e2 i) ∧
  (∀ i, registeredOf e2 i = registeredOf e1 i)

theorem pres_refl (e : Env) : Pres e e := ⟨id, fun _ => le_refl _, fun _ => rfl⟩

theorem pres_trans {e1 e2 e3 : Env} (h1 : Pres e1 e2) (h2 : Pres e2 e3) : Pres e1 e3 :=
  ⟨fun hw => h2.1 (h1.1 hw), fun i => (h1.2.1 i).trans (h2.2.1 i),
   fun i => (h2.2.2 i).trans (h1.2.2 i)⟩

theorem pres_of_quiet {e1 e2 : Env} (h : Quiet e1 e2) : Pres e1 e2 := by
  refine ⟨fun hw t => ?_, fun i => ?_, fun i => ?_⟩
  · rw [h.2.1 t, h.1]; exact hw t
  · rw [notifyCountOf, notifyCountOf, h.2.2]
  · rw [registeredOf, registeredOf, h.2.2]

theorem watchers_setLatest (env : Env) (r : Nat) (t : TId) :
    (setLatest env r t).watchers = env.watchers := by
  cases t <;> rfl

theorem latestRevOf_setLatest_le (env : Env) (r : Nat) (t u : TId) :
    latestRevOf (setLatest env r t) u ≤ max r (latestRevOf env u) := by
  cases t with
  | st i =>
    cases u with
    | st k =>
      simp only [setLatest, latestRevOf, updState, get?_updAt]
      split
      · cases env.states.get? k with
        | none => simp
        | some s => simp
      · exact le_max_right _ _
    | cp k => exact le_max_right _ _
  | cp j =>
    cases u with
    | st k => exact le_max_right _ _
    | cp k =>
      simp only [setLatest, latestRevOf, updComp, get?_updAt]
      split
      · cases env.comps.get? k with
        | none => simp
        | some c => simp
      · exact le_max_right _ _

theorem latestRevOf_notifyWatchers (env : Env) (t : TId) :
    latestRevOf (notifyWatchers env) t = latestRevOf env t := by
  cases t <;> rfl

theorem rev_notifyWatchers (env : Env) :
    (notifyWatchers env).currentRevision = env.currentRevision := rfl

theorem rev_dirtyTracked (t : TId) (env : Env) :
    (dirtyTracked t env).currentRevision = env.currentRevision + 1 := by
  unfold dirtyTracked
  rw [rev_notifyWatchers]

theorem notifyCountOf_notifyWatchers (env : Env) (i : Nat) :
    notifyCountOf (notifyWatchers env) i =
      if registeredOf env i = true then notifyCountOf env i + 1 else notifyCountOf env i := by
  unfold notifyCountOf notifyWatchers registeredOf
  simp only [List.get?_map]
  cases hg : env.watchers.get? i with
  | none => simp
  | some w => cases hr : w.registered <;> simp [hr]

theorem registeredOf_notifyWatchers (env : Env) (i : Nat) :
    registeredOf (notifyWatchers env) i = registeredOf env i := by
  unfold registeredOf notifyWatchers
  simp only [List.get?_map]
  cases hg : env.watchers.get? i with
  | none => simp
  | some w => cases hr : w.registered <;> simp [hr]

theorem latestRevOf_dirtyTracked (t u : TId) (env : Env) :
    latestRevOf (dirtyTracked t env) u = latestRevOf (setLatest env (env.currentRevision + 1) t) u := by
  unfold dirtyTracked
  rw [latestRevOf_notifyWatchers]
  cases u <;> rfl

theorem notifyCountOf_dirtyTracked (t : TId) (env : Env) (i : Nat) :
    notifyCountOf (dirtyTracked t env) i =
      if registeredOf env i = true then notifyCountOf env i + 1 else notifyCountOf env i := by
  unfold dirtyTracked
  rw [notifyCountOf_notifyWatchers]
  have h1 : notifyCountOf { setLatest env (env.currentRevision + 1) t with
      currentRevision := env.currentRevision + 1 } i = notifyCountOf env i := by
    unfold notifyCountOf
    rw [show ({ setLatest env (env.currentRevision + 1) t with
      currentRevision := env.currentRevision + 1 } : Env).watchers = env.watchers from watchers_setLatest env _ t]
  have h2 : registeredOf { setLatest env (env.currentRevision + 1) t with
      currentRevision := env.currentRevision + 1 } i = registeredOf env i := by
    unfold registeredOf
    rw [show ({ setLatest env (env.currentRevision + 1) t with
      currentRevision := env.currentRevision + 1 } : Env).watchers = env.watchers from watchers_setLatest env _ t]
  rw [h1, h2]

theorem registeredOf_dirtyTracked (t : TId) (env : Env) (i : Nat) :
    registeredOf (dirtyTracked t env) i = registeredOf env i := by
  unfold dirtyTracked
  rw [registeredOf_notifyWatchers]
  unfold registeredOf
  rw [show ({ setLatest env (env.currentRevision + 1) t with
    currentRevision := env.currentRevision + 1 } : Env).watchers = env.watchers from watchers_setLatest env _ t]

theorem pres_dirtyTracked (t : TId) (env : Env) : Pres env (dirtyTracked t env) := by
  refine ⟨fun hw u => ?_, fun i => ?_, fun i => registeredOf_dirtyTracked t env i⟩
  · rw [latestRevOf_dirtyTracked, rev_dirtyTracked]
    calc latestRevOf (setLatest env (env.currentRevision + 1) t) u
        ≤ max (env.currentRevision + 1) (latestRevOf env u) := latestRevOf_setLatest_le env _ t u
      _ ≤ env.currentRevision + 1 :=
        max_le (le_refl _) ((hw u).trans (Nat.le_succ _))
  · rw [notifyCountOf_dirtyTracked]
    split
    · exact Nat.le_succ_of_le (le_refl _)
    · exact le_refl _

theorem pres_stateSet (i : Nat) (v : Int) (env : Env) : Pres env (stateSet i v env) := by
  unfold stateSet
  cases hg : env.states.get? i with
  | none => exact pres_refl env
  | some s =>
    dsimp only
    by_cases he : s.equals s.value v = true
    · rw [if_pos he]; exact pres_refl env
    · rw [if_neg he]
      exact pres_trans
        (pres_of_quiet (quiet_updState env i (fun s2 => { s2 with value := v }) (fun s2 => rfl)))
        (pres_dirtyTracked (.st i) _)

theorem quiet_flag (env : Env) (b : Bool) :
    Quiet env { env with consumptionEnabled := b } := by
  refine ⟨rfl, fun t => ?_, rfl⟩
  cases t <;> rfl

theorem quiet_ctx (env : Env) (co : Option (List TId)) (cr : Option Nat) :
    Quiet env { env with currentComputation := co, currentComputedRef := cr } := by
  refine ⟨rfl, fun t => ?_, rfl⟩
  cases t <;> rfl

theorem pres_finally (env4 : Env) (j : Nat) (F : CompSig → CompSig)
    (hF : ∀ c2, (F c2).latestRevision = c2.latestRevision)
    (newT : List TId) (co : Option (List TId)) :
    Pres env4 { addRefs newT j (consumeTracked (.cp j) (dirtyTracked (.cp j) (updComp env4 j F)))
      with currentComputation := co, currentComputedRef := none } := by
  refine pres_trans (pres_of_quiet (quiet_updComp env4 j F hF)) ?_
  refine pres_trans (pres_dirtyTracked (.cp j) _) ?_
  refine pres_trans (pres_of_quiet (quiet_consumeTracked _ (.cp j))) ?_
  refine pres_trans (pres_of_quiet (quiet_addRefs _ newT j)) ?_
  exact pres_of_quiet (quiet_ctx _ co none)

theorem pres_computedGet (recur : Exp → Env → Except Err (Option Int) × Env)
    (hrec : ∀ e2 env2, Pres env2 (recur e2 env2).2) (j : Nat) (env : Env) :
    Pres env (computedGet recur j env).2 := by
  unfold computedGet
  cases hg : env.comps.get? j with
  | none => exact pres_refl env
  | some c =>
    dsimp only
    split
    · rename_i hcond
      refine pres_of_quiet (quiet_trans ?_ (quiet_consumeTracked _ (.cp j)))
      cases env.currentComputation with
      | some l =>
        dsimp only
        rw [if_pos hcond.1]
        exact ⟨rfl, fun t => latestRevOf_ctx env _ t, rfl⟩
      | none => exact quiet_refl env
    · cases h4 : recur c.body (bumpInvoke j (removeRefs c.lastTracked j
        { env with currentComputation := some [], currentComputedRef := some j })) with
      | mk res env4 =>
        simp only [h4]
        have p1 : Pres env env4 := by
          have h5 := hrec c.body (bumpInvoke j (removeRefs c.lastTracked j
            { env with currentComputation := some [], currentComputedRef := some j }))
          rw [h4] at h5
          exact pres_trans (pres_of_quiet (quiet_ctx env (some []) (some j)))
            (pres_trans (pres_of_quiet (quiet_removeRefs _ c.lastTracked j))
              (pres_trans (pres_of_quiet (quiet_bumpInvoke _ j)) h5))
        refine pres_trans p1 (pres_finally env4 j _ (fun c2 => ?_) _ _)
        cases res <;> rfl

theorem pres_evalStep : ∀ (fuel : Nat) (ex : Exp) (env : Env),
    Pres env (evalStep fuel ex env).2 := by
  intro fuel
  induction fuel with
  | zero => intro ex env; exact pres_refl env
  | succ n ih =>
    intro ex env
    cases ex with
    | lit m => exact pres_refl env
    | readState i =>
      show Pres env ((match stateGet i env with | (v, env1) => ((Except.ok v : Except Err (Option Int)), env1)).2)
      cases hs : stateGet i env with
      | mk v env1 =>
        have hq := quiet_stateGet env i
        rw [hs] at hq
        exact pres_of_quiet hq
    | readComputed k =>
      exact pres_computedGet _ (fun e2 env2 => ih e2 env2) k env
    | app1 f e1 =>
      show Pres env ((match evalStep n e1 env with
        | (.ok v, env1) => ((Except.ok (v.map f) : Except Err (Option Int)), env1)
        | (.error er, env1) => (.error er, env1)).2)
      cases h1 : evalStep n e1 env with
      | mk r1 env1 =>
        have p1 := ih e1 env
        rw [h1] at p1
        cases r1 <;> exact p1
    | app2 f e1 e2 =>
      show Pres env ((match evalStep n e1 env with
        | (.ok v1, env1) =>
          match evalStep n e2 env1 with
          | (.ok v2, env2) =>
            ((Except.ok (match v1, v2 with
              | some a, some b => some (f a b)
              | _, _ => none) : Except Err (Option Int)), env2)
          | (.error er, env2) => (.error er, env2)
        | (.error er, env1) => (.error er, env1)).2)
      cases h1 : evalStep n e1 env with
      | mk r1 env1 =>
        have p1 := ih e1 env
        rw [h1] at p1
        cases r1 with
        | error er => exact p1
        | ok v1 =>
          dsimp only
          cases h2 : evalStep n e2 env1 with
          | mk r2 env2 =>
            have p2 := ih e2 env1
            rw [h2] at p2
            cases r2 <;> exact pres_trans p1 p2
    | seqE e1 e2 =>
      show Pres env ((match evalStep n e1 env with
        | (.ok _, env1) => evalStep n e2 env1
        | (.error er, env1) => (.error er, env1)).2)
      cases h1 : evalStep n e1 env with
      | mk r1 env1 =>
        have p1 := ih e1 env
        rw [h1] at p1
        cases r1 with
        | error er => exact p1
        | ok v1 => exact pres_trans p1 (ih e2 env1)
    | writeState i v => exact pres_stateSet i v env
    | untrackE e1 =>
      show Pres env ((match evalStep n e1 { env with consumptionEnabled := false } with
        | (r, env1) => (r, { env1 with consumptionEnabled := true })).2)
      cases h1 : evalStep n e1 { env with consumptionEnabled := false } with
      | mk r1 env1 =>
        have p1 := ih e1 { env with consumptionEnabled := false }
        rw [h1] at p1
        refine pres_trans (pres_of_quiet (quiet_flag env false)) (pres_trans p1 ?_)
        exact pres_of_quiet (quiet_flag env1 true)
    | throwE => exact pres_refl env

theorem notifyCountOf_congr {e1 e2 : Env} (h : e2.watchers = e1.watchers) (i : Nat) :
    notifyCountOf e2 i = notifyCountOf e1 i := by
  unfold notifyCountOf; rw [h]

theorem registeredOf_congr {e1 e2 : Env} (h : e2.watchers = e1.watchers) (i : Nat) :
    registeredOf e2 i = registeredOf e1 i := by
  unfold registeredOf; rw [h]

theorem notify_bump_finally (env4 : Env) (j wi : Nat) (F : CompSig → CompSig)
    (newT : List TId) (co : Option (List TId)) (hreg4 : registeredOf env4 wi = true) :
    notifyCountOf env4 wi + 1 =
      notifyCountOf { addRefs newT j (consumeTracked (.cp j) (dirtyTracked (.cp j) (updComp env4 j F)))
        with currentComputation := co, currentComputedRef := none } wi := by
  have h5w : (updComp env4 j F).watchers = env4.watchers := rfl
  have h5r : registeredOf (updComp env4 j F) wi = true := (registeredOf_congr h5w wi).trans hreg4
  have h6 : notifyCountOf (dirtyTracked (.cp j) (updComp env4 j F)) wi
      = notifyCountOf (updComp env4 j F) wi + 1 := by
    rw [notifyCountOf_dirtyTracked, if_pos h5r]
  have h7 := quiet_consumeTracked (dirtyTracked (.cp j) (updComp env4 j F)) (.cp j)
  have h8 := quiet_addRefs (consumeTracked (.cp j) (dirtyTracked (.cp j) (updComp env4 j F))) newT j
  calc notifyCountOf env4 wi + 1
      = notifyCountOf (updComp env4 j F) wi + 1 := by rw [notifyCountOf_congr h5w]
    _ = notifyCountOf (dirtyTracked (.cp j) (updComp env4 j F)) wi := h6.symm
    _ = notifyCountOf (consumeTracked (.cp j) (dirtyTracked (.cp j) (updComp env4 j F))) wi :=
        (notifyCountOf_congr h7.2.2 wi).symm
    _ = notifyCountOf (addRefs newT j (consumeTracked (.cp j)
          (dirtyTracked (.cp j) (updComp env4 j F)))) wi :=
        (notifyCountOf_congr h8.2.2 wi).symm
    _ = notifyCountOf { addRefs newT j (consumeTracked (.cp j) (dirtyTracked (.cp j) (updComp env4 j F)))
          with currentComputation := co, currentComputedRef := none } wi :=
        (notifyCountOf_congr rfl wi).symm

/-!
Projection lemmas: how a fixed projection of the computed-heap entry at
an index flows unchanged through engine steps that do not touch the
projected fields.
-/

/-- Projection of the computed signal at index `k`, when present. -/
def compProjAt {β : Type} (p : CompSig → β) (env : Env) (k : Nat) : Option β :=
  (env.comps.get? k).map p

theorem compProjAt_updState {β : Type} (p : CompSig → β) (env : Env) (i : Nat)
    (f : StateSig → StateSig) (k : Nat) :
    compProjAt p (updState env i f) k = compProjAt p env k := rfl

theorem compProjAt_updComp {β : Type} (p : CompSig → β) (env : Env) (i : Nat)
    (f : CompSig → CompSig) (k : Nat) (h : ∀ c, p (f c) = p c) :
    compProjAt p (updComp env i f) k = compProjAt p env k := by
  unfold compProjAt updComp
  dsimp only
  rw [get?_updAt]
  split
  · cases env.comps.get? k with
    | none => rfl
    | some c => simp [h c]
  · rfl

theorem compProjAt_notifyWatchers {β : Type} (p : CompSig → β) (env : Env) (k : Nat) :
    compProjAt p (notifyWatchers env) k = compProjAt p env k := rfl

theorem compProjAt_consumeTracked {β : Type} (p : CompSig → β)
    (hp : ∀ c, p { c with lastRevision := c.latestRevision } = p c)
    (t : TId) (env : Env) (k : Nat) :
    compProjAt p (consumeTracked t env) k = compProjAt p env k := by
  unfold consumeTracked
  have h1 : compProjAt p (if env.consumptionEnabled then setLastToLatest env t else env) k
      = compProjAt p env k := by
    split
    · cases t with
      | st i => exact compProjAt_updState p env i _ k
      | cp m => exact compProjAt_updComp p env m _ k hp
    · rfl
  cases hcc : (if env.consumptionEnabled then setLastToLatest env t else env).currentComputation with
  | some l => simpa only [hcc] using h1
  | none => simpa only [hcc] using h1

theorem compProjAt_dirtyTracked {β : Type} (p : CompSig → β)
    (hp : ∀ c r, p { c with latestRevision := r } = p c)
    (t : TId) (env : Env) (k : Nat) :
    compProjAt p (dirtyTracked t env) k = compProjAt p env k := by
  unfold dirtyTracked
  rw [compProjAt_notifyWatchers]
  have h1 : compProjAt p { setLatest env (env.currentRevision + 1) t with
      currentRevision := env.currentRevision + 1 } k
      = compProjAt p (setLatest env (env.currentRevision + 1) t) k := rfl
  rw [h1]
  cases t with
  | st i => exact compProjAt_updState p env i _ k
  | cp m => exact compProjAt_updComp p env m _ k (fun c => hp c _)

theorem compProjAt_foldl {β γ : Type} (p : CompSig → β) (step : Env → γ → Env)
    (hstep : ∀ e b k, compProjAt p (step e b) k = compProjAt p e k)
    (l : List γ) (env : Env) (k : Nat) :
    compProjAt p (l.foldl step env) k = compProjAt p env k := by
  induction l generalizing env with
  | nil => rfl
  | cons b bs ih =>
    rw [List.foldl_cons, ih (step env b), hstep env b k]

theorem compProjAt_addRefs {β : Type} (p : CompSig → β)
    (hp : ∀ c l, p { c with computedRefs := l } = p c)
    (l : List TId) (j : Nat) (env : Env) (k : Nat) :
    compProjAt p (addRefs l j env) k = compProjAt p env k := by
  refine compProjAt_foldl p _ (fun e t k2 => ?_) l env k
  cases t with
  | st i => exact compProjAt_updState p e i _ k2
  | cp m => exact compProjAt_updComp p e m _ k2 (fun c => hp c _)

theorem compProjAt_removeRefs {β : Type} (p : CompSig → β)
    (hp : ∀ c l, p { c with computedRefs := l } = p c)
    (l : List TId) (j : Nat) (env : Env) (k : Nat) :
    compProjAt p (removeRefs l j env) k = compProjAt p env k := by
  refine compProjAt_foldl p _ (fun e t k2 => ?_) l env k
  cases t with
  | st i => exact compProjAt_updState p e i _ k2
  | cp m => exact compProjAt_updComp p e m _ k2 (fun c => hp c _)

theorem comps_stateSet (i : Nat) (v : Int) (env : Env) :
    (stateSet i v env).comps = env.comps := by
  unfold stateSet
  cases hg : env.states.get? i with
  | none => rfl
  | some s =>
    dsimp only
    split
    · rfl
    · rfl

theorem latestRevOf_stateSet_ne (i : Nat) (v : Int) (env : Env) (s : Nat) (h : s ≠ i) :
    latestRevOf (stateSet i v env) (.st s) = latestRevOf env (.st s) := by
  unfold stateSet
  cases hg : env.states.get? i with
  | none => rfl
  | some s0 =>
    dsimp only
    split
    · rfl
    · rw [latestRevOf_dirtyTracked]
      show latestRevOf (updState (updState env i fun s2 => { s2 with value := v }) i _) (.st s) = _
      simp only [latestRevOf, updState, get?_updAt]
      rw [if_neg (fun hh => h hh.symm), if_neg (fun hh => h hh.symm)]

theorem latestRevOf_cp_congr {e1 e2 : Env} (h : e2.comps = e1.comps) (k : Nat) :
    latestRevOf e2 (.cp k) = latestRevOf e1 (.cp k) := by
  unfold latestRevOf; rw [h]

/-- A sequence of top-level `State.set` calls. -/
def applySets (ops : List (Nat × Int)) (env : Env) : Env :=
  ops.foldl (fun e p => stateSet p.1 p.2 e) env

theorem comps_applySets (ops : List (Nat × Int)) (env : Env) :
    (applySets ops env).comps = env.comps := by
  induction ops generalizing env with
  | nil => rfl
  | cons p ps ih =>
    unfold applySets
    rw [List.foldl_cons]
    exact (ih (stateSet p.1 p.2 env)).trans (comps_stateSet p.1 p.2 env)

theorem latestRevOf_applySets (ops : List (Nat × Int)) (env : Env) (t : TId)
    (h : ∀ p ∈ ops, TId.st p.1 ≠ t) :
    latestRevOf (applySets ops env) t = latestRevOf env t := by
  induction ops generalizing env with
  | nil => rfl
  | cons p ps ih =>
    unfold applySets
    rw [List.foldl_cons]
    have h2 : latestRevOf (stateSet p.1 p.2 env) t = latestRevOf env t := by
      cases t with
      | st s =>
        refine latestRevOf_stateSet_ne p.1 p.2 env s (fun hh => ?_)
        exact h p (by simp) (by rw [hh])
      | cp k => exact latestRevOf_cp_congr (comps_stateSet p.1 p.2 env) k
    exact (ih (stateSet p.1 p.2 env) (fun q hq => h q (by simp [hq]))).trans h2

theorem getMaxRevision_congr {e1 e2 : Env} (l : List TId)
    (h : ∀ t ∈ l, latestRevOf e2 t = latestRevOf e1 t) :
    getMaxRevision e2 l = getMaxRevision e1 l := by
  unfold getMaxRevision
  have haux : ∀ (l2 : List TId) (a : Nat),
      (∀ t ∈ l2, latestRevOf e2 t = latestRevOf e1 t) →
      l2.foldl (fun m t => max m (latestRevOf e2 t)) a
        = l2.foldl (fun m t => max m (latestRevOf e1 t)) a := by
    intro l2
    induction l2 with
    | nil => intro a _; rfl
    | cons t ts ih =>
      intro a h2
      rw [List.foldl_cons, List.foldl_cons, h2 t (by simp)]
      exact ih _ (fun u hu => h2 u (by simp [hu]))
  exact haux l 0 h

theorem getMaxRevision_le {env : Env} (hwf : wfEnv env) (l : List TId) :
    getMaxRevision env l ≤ env.currentRevision := by
  unfold getMaxRevision
  have haux : ∀ (l2 : List TId) (a : Nat), a ≤ env.currentRevision →
      l2.foldl (fun m t => max m (latestRevOf env t)) a ≤ env.currentRevision := by
    intro l2
    induction l2 with
    | nil => intro a ha; simpa using ha
    | cons t ts ih =>
      intro a ha
      rw [List.foldl_cons]
      exact ih _ (max_le ha (hwf t))
  exact haux l 0 (Nat.zero_le _)

theorem invokeCountOf_consumeTracked (t : TId) (env : Env) (k : Nat) :
    invokeCountOf (consumeTracked t env) k = invokeCountOf env k := by
  show (compProjAt (fun c => c.invokeCount) (consumeTracked t env) k).getD 0
    = (compProjAt (fun c => c.invokeCount) env k).getD 0
  rw [compProjAt_consumeTracked (fun c => c.invokeCount) (fun c => rfl)]

/-- The memoized (fresh) branch of `Computed.get`: with a non-empty
`lastTracked` none of whose revisions exceeds this node's own, `get`
returns the cached `lastValue` and does not invoke the derivation. -/
theorem computedGet_fresh (recur : Exp → Env → Except Err (Option Int) × Env)
    (j : Nat) (env : Env) (c : CompSig)
    (hc : env.comps.get? j = some c) (hne : c.lastTracked ≠ [])
    (hfresh : getMaxRevision env c.lastTracked ≤ c.latestRevision) :
    (computedGet recur j env).1 = .ok c.lastValue ∧
    invokeCountOf (computedGet recur j env).2 j = invokeCountOf env j := by
  unfold computedGet
  rw [hc]
  dsimp only
  rw [if_pos ⟨hne, hfresh⟩]
  refine ⟨rfl, ?_⟩
  rw [invokeCountOf_consumeTracked]
  cases env.currentComputation with
  | none => rfl
  | some l =>
    dsimp only
    split <;> rfl

theorem latestRevOf_setLatest_cp_self (env : Env) (r : Nat) (k : Nat) (c : CompSig)
    (hc : env.comps.get? k = some c) :
    latestRevOf (setLatest env r (.cp k)) (.cp k) = r := by
  unfold setLatest latestRevOf updComp
  dsimp only
  rw [get?_updAt, if_pos rfl, hc]
  rfl

theorem latestRevOf_some (env : Env) (k : Nat) (c : CompSig)
    (hc : env.comps.get? k = some c) :
    latestRevOf env (.cp k) = c.latestRevision := by
  unfold latestRevOf
  dsimp only
  rw [hc]
  rfl

/-- After the fresh branch's bookkeeping the node is still fresh. -/
theorem fresh_branch_post (env envx : Env) (j : Nat) (c c2 : CompSig)
    (hq : Quiet env envx) (hcx : envx.comps = env.comps)
    (hc : env.comps.get? j = some c)
    (hcond2 : getMaxRevision env c.lastTracked ≤ c.latestRevision)
    (hsome : (consumeTracked (.cp j) envx).comps.get? j = some c2) :
    getMaxRevision (consumeTracked (.cp j) envx) c2.lastTracked ≤ c2.latestRevision := by
  have hqc : Quiet env (consumeTracked (.cp j) envx) :=
    quiet_trans hq (quiet_consumeTracked envx (.cp j))
  have ht : compProjAt (fun c3 => c3.lastTracked) (consumeTracked (.cp j) envx) j
      = compProjAt (fun c3 => c3.lastTracked) env j := by
    rw [compProjAt_consumeTracked (fun c3 => c3.lastTracked) (fun c3 => rfl)]
    unfold compProjAt
    rw [hcx]
  have hl : compProjAt (fun c3 => c3.latestRevision) (consumeTracked (.cp j) envx) j
      = compProjAt (fun c3 => c3.latestRevision) env j := by
    rw [compProjAt_consumeTracked (fun c3 => c3.latestRevision) (fun c3 => rfl)]
    unfold compProjAt
    rw [hcx]
  unfold compProjAt at ht hl
  rw [hsome, hc] at ht hl
  have ht2 : c2.lastTracked = c.lastTracked := Option.some.inj ht
  have hl2 : c2.latestRevision = c.latestRevision := Option.some.inj hl
  rw [ht2, hl2, getMaxRevision_congr c.lastTracked (fun t _ => hqc.2.1 t)]
  exact hcond2

/-- After the stale branch's `finally` bookkeeping the node carries the
new top revision, so it is fresh with respect to every trackable. -/
theorem stale_finally_post (env4 : Env) (j : Nat) (F : CompSig → CompSig)
    (hF : ∀ c3, (F c3).latestRevision = c3.latestRevision)
    (newT : List TId) (co : Option (List TId))
    (hwf4 : wfEnv env4) (c2 : CompSig)
    (hsome : ({ addRefs newT j (consumeTracked (.cp j) (dirtyTracked (.cp j) (updComp env4 j F)))
        with currentComputation := co, currentComputedRef := none } : Env).comps.get? j = some c2) :
    getMaxRevision { addRefs newT j (consumeTracked (.cp j) (dirtyTracked (.cp j) (updComp env4 j F)))
        with currentComputation := co, currentComputedRef := none } c2.lastTracked
      ≤ c2.latestRevision := by
  have hpres : compProjAt (fun _ => true)
      ({ addRefs newT j (consumeTracked (.cp j) (dirtyTracked (.cp j) (updComp env4 j F)))
        with currentComputation := co, currentComputedRef := none } : Env) j
      = compProjAt (fun _ => true) env4 j := by
    rw [show compProjAt (fun _ => true)
        ({ addRefs newT j (consumeTracked (.cp j) (dirtyTracked (.cp j) (updComp env4 j F)))
          with currentComputation := co, currentComputedRef := none } : Env) j
        = compProjAt (fun _ => true)
          (addRefs newT j (consumeTracked (.cp j) (dirtyTracked (.cp j) (updComp env4 j F)))) j
      from rfl]
    rw [compProjAt_addRefs (fun _ => true) (fun c3 l => rfl),
      compProjAt_consumeTracked (fun _ => true) (fun c3 => rfl),
      compProjAt_dirtyTracked (fun _ => true) (fun c3 r => rfl),
      compProjAt_updComp (fun _ => true) env4 j F j (fun c3 => rfl)]
  unfold compProjAt at hpres
  rw [hsome] at hpres
  cases h4 : env4.comps.get? j with
  | none => rw [h4] at hpres; exact absurd hpres (by simp)
  | some c4 =>
    have hwf5 : wfEnv (updComp env4 j F) :=
      (pres_of_quiet (quiet_updComp env4 j F hF)).1 hwf4
    have hwf6 : wfEnv (dirtyTracked (.cp j) (updComp env4 j F)) :=
      (pres_dirtyTracked (.cp j) _).1 hwf5
    have hrev6 : (dirtyTracked (.cp j) (updComp env4 j F)).currentRevision
        = env4.currentRevision + 1 := rev_dirtyTracked (.cp j) _
    have hc5 : (updComp env4 j F).comps.get? j = some (F c4) := by
      unfold updComp
      show (updAt env4.comps j F).get? j = some (F c4)
      rw [get?_updAt, if_pos rfl, h4]
      rfl
    have hlat6 : latestRevOf (dirtyTracked (.cp j) (updComp env4 j F)) (.cp j)
        = env4.currentRevision + 1 := by
      rw [latestRevOf_dirtyTracked]
      exact latestRevOf_setLatest_cp_self _ _ j (F c4) hc5
    have hq7 := quiet_consumeTracked (dirtyTracked (.cp j) (updComp env4 j F)) (.cp j)
    have hq8 := quiet_addRefs (consumeTracked (.cp j) (dirtyTracked (.cp j) (updComp env4 j F))) newT j
    have hq96 : ∀ t, latestRevOf
        ({ addRefs newT j (consumeTracked (.cp j) (dirtyTracked (.cp j) (updComp env4 j F)))
          with currentComputation := co, currentComputedRef := none } : Env) t
        = latestRevOf (dirtyTracked (.cp j) (updComp env4 j F)) t := by
      intro t
      rw [show latestRevOf
          ({ addRefs newT j (consumeTracked (.cp j) (dirtyTracked (.cp j) (updComp env4 j F)))
            with currentComputation := co, currentComputedRef := none } : Env) t
          = latestRevOf (addRefs newT j (consumeTracked (.cp j)
              (dirtyTracked (.cp j) (updComp env4 j F)))) t from by cases t <;> rfl]
      rw [hq8.2.1 t, hq7.2.1 t]
    have hl2 : c2.latestRevision = env4.currentRevision + 1 := by
      have h9 := latestRevOf_some _ j c2 hsome
      rw [hq96 (.cp j), hlat6] at h9
      exact h9.symm
    rw [hl2, getMaxRevision_congr c2.lastTracked (fun t _ => hq96 t)]
    calc getMaxRevision (dirtyTracked (.cp j) (updComp env4 j F)) c2.lastTracked
        ≤ (dirtyTracked (.cp j) (updComp env4 j F)).currentRevision := getMaxRevision_le hwf6 _
      _ = env4.currentRevision + 1 := hrev6

/-- After any `Computed.get`, both branches leave the node fresh: the
maximum revision among its recorded sources does not exceed its own
latest revision (given the clock invariant on entry). -/
theorem computedGet_post (recur : Exp → Env → Except Err (Option Int) × Env)
    (j : Nat) (env : Env)
    (hrecwf : ∀ e2 env2, wfEnv env2 → wfEnv (recur e2 env2).2)
    (hwf : wfEnv env) (c2 : CompSig)
    (hsome : (computedGet recur j env).2.comps.get? j = some c2) :
    getMaxRevision (computedGet recur j env).2 c2.lastTracked ≤ c2.latestRevision := by
  unfold computedGet at hsome ⊢
  cases hc : env.comps.get? j with
  | none =>
    rw [hc] at hsome
    have h2 : env.comps.get? j = some c2 := hsome
    rw [hc] at h2
    exact Option.noConfusion h2
  | some c =>
    rw [hc] at hsome
    dsimp only at hsome ⊢
    by_cases hcond : (c.lastTracked ≠ [] ∧ getMaxRevision env c.lastTracked ≤ c.latestRevision)
    · rw [if_pos hcond] at hsome ⊢
      cases hcc : env.currentComputation with
      | none =>
        rw [hcc] at hsome
        dsimp only at hsome ⊢
        exact fresh_branch_post env env j c c2 (quiet_refl env) rfl hc hcond.2 hsome
      | some l =>
        rw [hcc] at hsome
        dsimp only at hsome ⊢
        rw [if_pos hcond.1] at hsome ⊢
        exact fresh_branch_post env _ j c c2
          ⟨rfl, fun t => latestRevOf_ctx env _ t, rfl⟩ rfl hc hcond.2 hsome
    · rw [if_neg hcond] at hsome ⊢
      cases h4 : recur c.body (bumpInvoke j (removeRefs c.lastTracked j
          { env with currentComputation := some [], currentComputedRef := some j })) with
      | mk res env4 =>
        rw [h4] at hsome
        dsimp only at hsome ⊢
        have hwf4 : wfEnv env4 := by
          have h5 := hrecwf c.body (bumpInvoke j (removeRefs c.lastTracked j
            { env with currentComputation := some [], currentComputedRef := some j }))
          rw [h4] at h5
          exact h5 ((pres_of_quiet (quiet_bumpInvoke _ j)).1
            ((pres_of_quiet (quiet_removeRefs _ c.lastTracked j)).1
              ((pres_of_quiet (quiet_ctx env (some []) (some j))).1 hwf)))
        refine stale_finally_post env4 j _ (fun c3 => ?_) _ _ hwf4 c2 hsome
        cases res <;> rfl

theorem wfEnv_of_lists (env : Env)
    (h1 : ∀ s ∈ env.states, s.latestRevision ≤ env.currentRevision)
    (h2 : ∀ c ∈ env.comps, c.latestRevision ≤ env.currentRevision) :
    wfEnv env := by
  intro t
  cases t with
  | st i =>
    cases hg : env.states.get? i with
    | none =>
      unfold latestRevOf
      dsimp only
      rw [hg]
      exact Nat.zero_le _
    | some s =>
      unfold latestRevOf
      dsimp only
      rw [hg]
      exact h1 s (List.get?_mem hg)
  | cp k =>
    cases hg : env.comps.get? k with
    | none =>
      unfold latestRevOf
      dsimp only
      rw [hg]
      exact Nat.zero_le _
    | some c =>
      unfold latestRevOf
      dsimp only
      rw [hg]
      exact h2 c (List.get?_mem hg)

/-- Scenario (C1): a constant-valued `Computed` (`() => 7`), no `State`
in the whole graph. -/
def envC1 : Env := mkComputed (.lit 7) Env.empty

/-- Scenario (C2): `State(1)` and a `Computed` whose derivation reads
that state and then writes `2` to it. -/
def envC2 : Env := mkComputed (.seqE (.readState 0) (.writeState 0 2)) (mkState 1 Env.empty)

/-- Scenario (C3): `State(1)` and a `Computed` whose derivation reads
the state and then throws. -/
def envC3 : Env := mkComputed (.seqE (.readState 0) .throwE) (mkState 1 Env.empty)

/-- Scenario (C4): `State(1)` and a `Computed` whose derivation reads
the state only inside `untrack`. -/
def envC4 : Env := mkComputed (.untrackE (.readState 0)) (mkState 1 Env.empty)

/-- Scenario (C5): a constant-valued `Computed` (`() => 42`). -/
def envC5 : Env := mkComputed (.lit 42) Env.empty

/-- Scenario (C7): `State(1)`, a fully evaluated `Computed` reading it,
and a `Watcher` watching the `Computed`; then the state is set to `2`. -/
def envC7 : Env :=
  stateSet 0 2
    (watcherWatch 0 [.cp 0]
      (mkWatcher (computedGetTop 5 0 (mkComputed (.readState 0) (mkState 1 Env.empty))).2))

/-- Scenario (C8): a `Watcher` watching `State(1)` directly; the state
is then set to `2` and to `3` with no intervening `watch()` call. -/
def envC8 : Env :=
  stateSet 0 3 (stateSet 0 2 (watcherWatch 0 [.st 0] (mkWatcher (mkState 1 Env.empty))))

/-- Scenario (C10): `State(3)`, a never-evaluated `Computed` reading
it, and a `Watcher` registered by watching the state. -/
def envC10 : Env :=
  watcherWatch 0 [.st 0] (mkWatcher (mkComputed (.readState 0) (mkState 3 Env.empty)))

/-- The computed signal record held by `envC10` at index 0. -/
def compC10 : CompSig :=
  { body := .readState 0, lastValue := none, lastTracked := [], lastRevision := 0,
    latestRevision := 2, computedRefs := [], invokeCount := 0 }

/-- C1 counterexample.  The claim quantifies over every `Computed`; a
constant-valued one (`envC1`, derivation `() => 7`) refutes it: between
the first `get()` and the second no State was changed (the graph has no
State at all), yet the second `get()` invokes the derivation again
(invocation count 2, where the claim requires the count to stay 1),
because the memo test `lastTracked.length > 0` fails on an empty
dependency list. -/
theorem constant_computed_reinvoked_with_no_source_change :
    invokeCountOf (computedGetTop 5 0 envC1).2 0 = 1 ∧
    invokeCountOf (computedGetTop 5 0 (computedGetTop 5 0 envC1).2).2 0 = 2 := by
  exact ⟨by decide, by decide⟩

/-- C1 (amended): for every `Computed` that recorded at least one
source during its last evaluation, if between one `get()` and the next
no `State` in its recorded (transitively flattened) source list is
written — writes to other states are allowed — then the second `get()`
returns the cached value and does not invoke the derivation function
again.  The hypotheses describe an arbitrary first `get()` from a
clock-consistent environment followed by an arbitrary sequence of
`set` calls avoiding the recorded sources. -/
theorem memoization_with_nonempty_sources
    (fuel fuel2 j : Nat) (env0 : Env) (r1 : Except Err (Option Int)) (env1 : Env)
    (ops : List (Nat × Int)) (c1 : CompSig)
    (hwf : wfEnv env0)
    (hget : computedGetTop fuel j env0 = (r1, env1))
    (hc1 : env1.comps.get? j = some c1)
    (hne : c1.lastTracked ≠ [])
    (hops : ∀ p ∈ ops, TId.st p.1 ∉ c1.lastTracked) :
    (computedGetTop fuel2 j (applySets ops env1)).1 = .ok c1.lastValue ∧
    invokeCountOf (computedGetTop fuel2 j (applySets ops env1)).2 j
      = invokeCountOf env1 j := by
  have h2 : (computedGet (fun e2 env2 => evalStep fuel e2 env2) j env0).2 = env1 :=
    congrArg Prod.snd hget
  have h3 := computedGet_post (fun e2 env2 => evalStep fuel e2 env2) j env0
    (fun e2 env2 hw => (pres_evalStep fuel e2 env2).1 hw) hwf c1 (by rw [h2]; exact hc1)
  rw [h2] at h3
  have hc2 : (applySets ops env1).comps.get? j = some c1 := by
    rw [comps_applySets]; exact hc1
  have hlat : ∀ t ∈ c1.lastTracked,
      latestRevOf (applySets ops env1) t = latestRevOf env1 t := by
    intro t ht
    refine latestRevOf_applySets ops env1 t (fun p hp hh => ?_)
    exact hops p hp (hh ▸ ht)
  have hfresh2 : getMaxRevision (applySets ops env1) c1.lastTracked ≤ c1.latestRevision := by
    rw [getMaxRevision_congr c1.lastTracked hlat]; exact h3
  have hmain := computedGet_fresh (fun e2 env2 => evalStep fuel2 e2 env2) j
    (applySets ops env1) c1 hc2 hne hfresh2
  refine ⟨hmain.1, hmain.2.trans ?_⟩
  unfold invokeCountOf
  rw [comps_applySets]

/-- Scenario (C1 witness): `State(5)`, an unrelated `State(9)`, and a
`Computed` reading the first state. -/
def envC1w : Env := mkComputed (.readState 0) (mkState 9 (mkState 5 Env.empty))

/-- The computed record of `envC1w` after its first `get()`. -/
def compC1w : CompSig :=
  { body := .readState 0, lastValue := some 5, lastTracked := [.st 0], lastRevision := 4,
    latestRevision := 4, computedRefs := [], invokeCount := 1 }

/-- C1 witness: after evaluating the computed once and then writing the
unrelated state, the second `get()` returns the cached `5` with the
invocation count still 1. -/
theorem memoization_with_nonempty_sources_witness :
    wfEnv envC1w ∧
    computedGetTop 5 0 envC1w = ((computedGetTop 5 0 envC1w).1, (computedGetTop 5 0 envC1w).2) ∧
    (computedGetTop 5 0 envC1w).2.comps.get? 0 = some compC1w ∧
    compC1w.lastTracked ≠ [] ∧
    (∀ p ∈ [((1 : Nat), (100 : Int))], TId.st p.1 ∉ compC1w.lastTracked) ∧
    ((computedGetTop 5 0 (applySets [(1, 100)] (computedGetTop 5 0 envC1w).2)).1
        = .ok compC1w.lastValue ∧
      invokeCountOf (computedGetTop 5 0 (applySets [(1, 100)] (computedGetTop 5 0 envC1w).2)).2 0
        = invokeCountOf (computedGetTop 5 0 envC1w).2 0) :=
  ⟨wfEnv_of_lists _ (by decide) (by decide), rfl, rfl, by decide, by decide,
    memoization_with_nonempty_sources 5 5 0 envC1w
      (computedGetTop 5 0 envC1w).1 (computedGetTop 5 0 envC1w).2 [(1, 100)] compC1w
      (wfEnv_of_lists _ (by decide) (by decide)) rfl rfl (by decide) (by decide)⟩

/-- C2: `State.set` during a computation that already read the same
state completes silently — there is no `InvalidMutationDuringComputation`
error anywhere in `State.set`/`dirtyTracked` (index.ts lines 76-80 and
46-49).  On `envC2` the `get()` finishes normally (the derivation's
value is the `undefined` returned by `set`), the write has taken
effect, and the state was dirtied mid-computation (its latest revision
advanced past the revision it had when the computation consumed it). -/
theorem self_write_completes_silently :
    (computedGetTop 5 0 envC2).1 = .ok none ∧
    stateValueOf (computedGetTop 5 0 envC2).2 0 = some 2 ∧
    lastRevOf (computedGetTop 5 0 envC2).2 (.st 0) < latestRevOf (computedGetTop 5 0 envC2).2 (.st 0) := by
  exact ⟨by decide, by decide, by decide⟩

/-- C3 counterexample.  On `envC3` the first `get()` propagates the
thrown error, but the `finally` block stamps the `Computed` with a
fresh revision, so the second `get()` finds it "fresh" and returns the
never-assigned cached value (`undefined`, i.e. `none`) without invoking
the derivation again — the claim requires re-invocation. -/
theorem throwing_derivation_leaves_cache_falsely_fresh :
    (computedGetTop 5 0 envC3).1 = .error .thrown ∧
    invokeCountOf (computedGetTop 5 0 envC3).2 0 = 1 ∧
    (computedGetTop 5 0 (computedGetTop 5 0 envC3).2).1 = .ok none ∧
    invokeCountOf (computedGetTop 5 0 (computedGetTop 5 0 envC3).2).2 0 = 1 := by
  exact ⟨by decide, by decide, by decide, by decide⟩

/-- C3 (amended): if a `Computed`'s derivation throws during `get()`,
the error propagates to the caller, but when at least one source was
recorded before the throw the memo cache is left falsely fresh: a
subsequent `get()` returns the cached value (never assigned, i.e.
`undefined`, if no evaluation ever succeeded) without re-invoking the
derivation. -/
theorem get_after_throw_returns_cache_without_reinvoke
    (fuel fuel2 j : Nat) (env0 env1 : Env) (c1 : CompSig)
    (hwf : wfEnv env0)
    (hget : computedGetTop fuel j env0 = (.error .thrown, env1))
    (hc1 : env1.comps.get? j = some c1)
    (hne : c1.lastTracked ≠ []) :
    (computedGetTop fuel2 j env1).1 = .ok c1.lastValue ∧
    invokeCountOf (computedGetTop fuel2 j env1).2 j = invokeCountOf env1 j := by
  have h2 : (computedGet (fun e2 env2 => evalStep fuel e2 env2) j env0).2 = env1 :=
    congrArg Prod.snd hget
  have h3 := computedGet_post (fun e2 env2 => evalStep fuel e2 env2) j env0
    (fun e2 env2 hw => (pres_evalStep fuel e2 env2).1 hw) hwf c1 (by rw [h2]; exact hc1)
  rw [h2] at h3
  exact computedGet_fresh (fun e2 env2 => evalStep fuel2 e2 env2) j env1 c1 hc1 hne h3

/-- The computed record of `envC3` after its first (throwing) `get()`. -/
def compC3w : CompSig :=
  { body := .seqE (.readState 0) .throwE, lastValue := none, lastTracked := [.st 0],
    lastRevision := 3, latestRevision := 3, computedRefs := [], invokeCount := 1 }

/-- C3 witness: on `envC3` the first `get()` throws after reading the
state; the second `get()` returns the never-assigned cache without
re-invoking the derivation. -/
theorem get_after_throw_returns_cache_without_reinvoke_witness :
    wfEnv envC3 ∧
    computedGetTop 5 0 envC3 = (.error .thrown, (computedGetTop 5 0 envC3).2) ∧
    (computedGetTop 5 0 envC3).2.comps.get? 0 = some compC3w ∧
    compC3w.lastTracked ≠ [] ∧
    ((computedGetTop 5 0 (computedGetTop 5 0 envC3).2).1 = .ok compC3w.lastValue ∧
      invokeCountOf (computedGetTop 5 0 (computedGetTop 5 0 envC3).2).2 0
        = invokeCountOf (computedGetTop 5 0 envC3).2 0) :=
  ⟨wfEnv_of_lists _ (by decide) (by decide), rfl, rfl, by decide,
    get_after_throw_returns_cache_without_reinvoke 5 5 0 envC3
      (computedGetTop 5 0 envC3).2 compC3w
      (wfEnv_of_lists _ (by decide) (by decide)) rfl rfl (by decide)⟩

/-- C4: a read inside `untrack` is still recorded as a dependency,
because `consumeTracked` (lines 41-44) guards only the
`lastRevision` update by `consumptionEnabled`, not the recording into
`currentComputation`.  On `envC4` the state ends up in `lastTracked`,
and after `state.set(2)` the next `get()` re-invokes the derivation and
returns the new value — the claim (and the repository's own test
"Untrack works") requires the cached `1` with no re-invocation. -/
theorem untrack_read_still_recorded_and_invalidates :
    lastTrackedOf (computedGetTop 5 0 envC4).2 0 = [.st 0] ∧
    (computedGetTop 5 0 (stateSet 0 2 (computedGetTop 5 0 envC4).2)).1 = .ok (some 2) ∧
    invokeCountOf (computedGetTop 5 0 (stateSet 0 2 (computedGetTop 5 0 envC4).2)).2 0 = 2 := by
  exact ⟨by decide, by decide, by decide⟩

/-- C5: a `Computed` that recorded no sources recomputes on every
`get()`: the memo test (line 112) requires `lastTracked.length > 0`, so
an empty dependency list always takes the stale path.  On `envC5` the
second `get()` invokes the derivation again (count 2), where the claim
requires it never to recompute after the first evaluation. -/
theorem sourceless_computed_always_recomputes :
    invokeCountOf (computedGetTop 5 0 envC5).2 0 = 1 ∧
    (computedGetTop 5 0 (computedGetTop 5 0 envC5).2).1 = .ok (some 42) ∧
    invokeCountOf (computedGetTop 5 0 (computedGetTop 5 0 envC5).2).2 0 = 2 := by
  exact ⟨by decide, by decide, by decide⟩

/-- C6: when the comparator accepts the new value, `State.set` is a
complete no-op: the returned environment is the input environment
unchanged — same stored value, same clock, same revision stamps, and no
watcher notified (index.ts line 77). -/
theorem equal_set_is_noop (env : Env) (i : Nat) (s : StateSig) (v : Int)
    (hs : env.states.get? i = some s) (heq : s.equals s.value v = true) :
    stateSet i v env = env := by
  unfold stateSet
  rw [hs]
  simp [heq]

/-- The state signal record created by `mkState 5 Env.empty`. -/
def stateC6 : StateSig :=
  { value := 5, equals := defaultEquals, lastRevision := 0, latestRevision := 1, computedRefs := [] }

/-- C6 witness: setting `State(5)` to `5` under the default comparator
leaves the environment untouched. -/
theorem equal_set_is_noop_witness :
    (mkState 5 Env.empty).states.get? 0 = some stateC6 ∧
    stateC6.equals stateC6.value 5 = true ∧
    stateSet 0 5 (mkState 5 Env.empty) = mkState 5 Env.empty :=
  ⟨rfl, rfl, equal_set_is_noop (mkState 5 Env.empty) 0 stateC6 5 rfl rfl⟩

/-- C7: `Watcher.getPending` filters by `isTrackedDirty`
(`latest > last`) uniformly, so a fully evaluated `Computed` whose
*source* changed is not reported pending (its own stamps are equal
after its last `get()`).  On `envC7` the watched `Computed` has a dirty
source, yet `getPending()` is empty — the claim (and the repository's
own Watcher test) requires it to be reported.  The probe itself is
read-only, which is the part of the claim the code does satisfy. -/
theorem getPending_misses_computed_with_stale_source :
    watcherGetPending 0 envC7 = [] ∧
    isTrackedDirty envC7 (.st 0) = true ∧
    registeredOf envC7 0 = true := by
  exact ⟨by decide, by decide, by decide⟩

/-- C8: `notifyWatchers` (lines 59-61) notifies every registered
watcher on every clock-advancing mutation; there is no
"already notified" flag anywhere, despite the comments on `Watcher`
(lines 207-217) describing one.  On `envC8` two consecutive `set`
calls with no intervening `watch()` invoke the notify callback twice,
where the claim allows at most one invocation per dirty episode. -/
theorem notify_fires_every_mutation_without_rearm :
    notifyCountOf envC8 0 = 2 := by
  decide

/-- Scenario (C9): the diamond — `State a = 0` (index 0),
`Computed b = f(a)` (index 0), `Computed c = g(a)` (index 1),
`Computed d = h(b, c)` (index 2), for arbitrary derivation functions
`f`, `g`, `h`. -/
def envC9 (f g : Int → Int) (h : Int → Int → Int) : Env :=
  mkComputed (.app2 h (.readComputed 0) (.readComputed 1))
    (mkComputed (.app1 g (.readState 0))
      (mkComputed (.app1 f (.readState 0)) (mkState 0 Env.empty)))

/-- The state record of the diamond after `d.get()`. -/
def stC9a : StateSig :=
  { value := 0
    equals := defaultEquals
    lastRevision := 1
    latestRevision := 1
    computedRefs := [0, 1, 2] }

/-- The record of `b` after the diamond's full evaluation. -/
def cpC9a0 (f : Int → Int) : CompSig :=
  { body := .app1 f (.readState 0)
    lastValue := some (f 0)
    lastTracked := [.st 0]
    lastRevision := 5
    latestRevision := 5
    computedRefs := [2]
    invokeCount := 1 }

/-- The record of `c` after the diamond's full evaluation. -/
def cpC9a1 (g : Int → Int) : CompSig :=
  { body := .app1 g (.readState 0)
    lastValue := some (g 0)
    lastTracked := [.st 0]
    lastRevision := 6
    latestRevision := 6
    computedRefs := [2]
    invokeCount := 1 }

/-- The record of `d` after the diamond's full evaluation; note the
flattened transitive source list. -/
def cpC9a2 (f g : Int → Int) (h : Int → Int → Int) : CompSig :=
  { body := .app2 h (.readComputed 0) (.readComputed 1)
    lastValue := some (h (f 0) (g 0))
    lastTracked := [.st 0, .cp 0, .cp 1]
    lastRevision := 7
    latestRevision := 7
    computedRefs := []
    invokeCount := 1 }

/-- The full environment of the diamond after `d.get()`. -/
def envC9a (f g : Int → Int) (h : Int → Int → Int) : Env :=
  { consumptionEnabled := true
    currentRevision := 7
    currentComputation := none
    currentComputedRef := none
    states := [stC9a]
    comps := [cpC9a0 f, cpC9a1 g, cpC9a2 f g h]
    watchers := [] }

/-- The state record of the diamond after `a.set(1)` and the second
`d.get()`. -/
def stC9b : StateSig :=
  { value := 1
    equals := defaultEquals
    lastRevision := 8
    latestRevision := 8
    computedRefs := [0, 1, 2] }

/-- The record of `b` after the second `d.get()` — one more invocation. -/
def cpC9b0 (f : Int → Int) : CompSig :=
  { body := .app1 f (.readState 0)
    lastValue := some (f 1)
    lastTracked := [.st 0]
    lastRevision := 9
    latestRevision := 9
    computedRefs := [2]
    invokeCount := 2 }

/-- The record of `c` after the second `d.get()` — one more invocation. -/
def cpC9b1 (g : Int → Int) : CompSig :=
  { body := .app1 g (.readState 0)
    lastValue := some (g 1)
    lastTracked := [.st 0]
    lastRevision := 10
    latestRevision := 10
    computedRefs := [2]
    invokeCount := 2 }

/-- The record of `d` after the second `d.get()` — one more invocation. -/
def cpC9b2 (f g : Int → Int) (h : Int → Int → Int) : CompSig :=
  { body := .app2 h (.readComputed 0) (.readComputed 1)
    lastValue := some (h (f 1) (g 1))
    lastTracked := [.st 0, .cp 0, .cp 1]
    lastRevision := 11
    latestRevision := 11
    computedRefs := []
    invokeCount := 2 }

/-- The full environment of the diamond after `a.set(1)` and the second
`d.get()`. -/
def envC9b (f g : Int → Int) (h : Int → Int → Int) : Env :=
  { consumptionEnabled := true
    currentRevision := 11
    currentComputation := none
    currentComputedRef := none
    states := [stC9b]
    comps := [cpC9b0 f, cpC9b1 g, cpC9b2 f g h]
    watchers := [] }

set_option maxHeartbeats 4000000 in
theorem envC9_first_get (f g : Int → Int) (h : Int → Int → Int) :
    computedGetTop 9 2 (envC9 f g h) = (.ok (some (h (f 0) (g 0))), envC9a f g h) := by
  simp [envC9, envC9a, stC9a, cpC9a0, cpC9a1, cpC9a2, computedGetTop, computedGet, evalStep,
    stateGet, stateSet, consumeTracked, dirtyTracked, notifyWatchers, setLatest,
    setLastToLatest, updComp, updState, updAt, addId, addAll, getMaxRevision, latestRevOf,
    bumpInvoke, removeRefs, addRefs, removeRef, addRef, addNat, mkState, mkComputed,
    Env.empty, defaultEquals]

set_option maxHeartbeats 4000000 in
theorem envC9_second_get (f g : Int → Int) (h : Int → Int → Int) :
    computedGetTop 9 2 (stateSet 0 1 (envC9a f g h))
      = (.ok (some (h (f 1) (g 1))), envC9b f g h) := by
  simp [envC9a, stC9a, cpC9a0, cpC9a1, cpC9a2, envC9b, stC9b, cpC9b0, cpC9b1, cpC9b2,
    computedGetTop, computedGet, evalStep, stateGet, stateSet, consumeTracked, dirtyTracked,
    notifyWatchers, setLatest, setLastToLatest, updComp, updState, updAt, addId, addAll,
    getMaxRevision, latestRevOf, bumpInvoke, removeRefs, addRefs, removeRef, addRef, addNat,
    mkState, mkComputed, Env.empty, defaultEquals]

/-- C9: in the diamond graph, after full evaluation each of the three
derivations has run exactly once; changing `a` once (the `set` is
clock-advancing since `1 ≠ 0` under the default comparator) and then
reading `d` re-invokes each of the derivations of `b`, `c` and `d`
exactly once more (counts go from 1 to exactly 2, with no duplicate
recomputation from the diamond shape), and `d` returns
`h (f 1) (g 1)`. -/
theorem diamond_rederives_each_exactly_once (f g : Int → Int) (h : Int → Int → Int) :
    invokeCountOf (computedGetTop 9 2 (envC9 f g h)).2 0 = 1 ∧
    invokeCountOf (computedGetTop 9 2 (envC9 f g h)).2 1 = 1 ∧
    invokeCountOf (computedGetTop 9 2 (envC9 f g h)).2 2 = 1 ∧
    (computedGetTop 9 2 (stateSet 0 1 (computedGetTop 9 2 (envC9 f g h)).2)).1
      = .ok (some (h (f 1) (g 1))) ∧
    invokeCountOf (computedGetTop 9 2 (stateSet 0 1 (computedGetTop 9 2 (envC9 f g h)).2)).2 0 = 2 ∧
    invokeCountOf (computedGetTop 9 2 (stateSet 0 1 (computedGetTop 9 2 (envC9 f g h)).2)).2 1 = 2 ∧
    invokeCountOf (computedGetTop 9 2 (stateSet 0 1 (computedGetTop 9 2 (envC9 f g h)).2)).2 2 = 2 := by
  have e1 : (computedGetTop 9 2 (envC9 f g h)).2 = envC9a f g h :=
    congrArg Prod.snd (envC9_first_get f g h)
  rw [e1, envC9_second_get f g h]
  exact ⟨rfl, rfl, rfl, rfl, rfl, rfl, rfl⟩

/-- C10: whenever `Computed.get` takes the stale path (the memo test of
line 112-113 fails), the `finally` block's `dirtyTracked(this)` runs —
whether the derivation returned or threw — and `notifyWatchers` invokes
the notify callback of every watcher currently in the registry at least
once (nested recomputations and writes inside the derivation may add
further invocations, and the derivation cannot change registry
membership).  So watcher notifications fire on every recomputation, not
only on `State` writes. -/
theorem stale_get_notifies_registered_watchers (fuel j : Nat) (env : Env) (c : CompSig)
    (hc : env.comps.get? j = some c)
    (hstale : ¬(c.lastTracked ≠ [] ∧ getMaxRevision env c.lastTracked ≤ c.latestRevision))
    (wi : Nat) (hreg : registeredOf env wi = true) :
    notifyCountOf env wi + 1 ≤ notifyCountOf (computedGetTop fuel j env).2 wi := by
  unfold computedGetTop computedGet
  rw [hc]
  dsimp only
  rw [if_neg hstale]
  cases h4 : evalStep fuel c.body (bumpInvoke j (removeRefs c.lastTracked j
      { env with currentComputation := some [], currentComputedRef := some j })) with
  | mk res env4 =>
    have p1 : Pres env env4 := by
      have h5 := pres_evalStep fuel c.body (bumpInvoke j (removeRefs c.lastTracked j
        { env with currentComputation := some [], currentComputedRef := some j }))
      rw [h4] at h5
      exact pres_trans (pres_of_quiet (quiet_ctx env (some []) (some j)))
        (pres_trans (pres_of_quiet (quiet_removeRefs _ c.lastTracked j))
          (pres_trans (pres_of_quiet (quiet_bumpInvoke _ j)) h5))
    have hreg4 : registeredOf env4 wi = true := (p1.2.2 wi).trans hreg
    calc notifyCountOf env wi + 1
        ≤ notifyCountOf env4 wi + 1 := Nat.succ_le_succ (p1.2.1 wi)
      _ = _ := notify_bump_finally env4 j wi _ _ _ hreg4

/-- C10 witness: on `envC10` (a registered watcher, a stale computed)
a top-level `get()` increments the watcher's notify count. -/
theorem stale_get_notifies_registered_watchers_witness :
    envC10.comps.get? 0 = some compC10 ∧
    ¬(compC10.lastTracked ≠ [] ∧
        getMaxRevision envC10 compC10.lastTracked ≤ compC10.latestRevision) ∧
    registeredOf envC10 0 = true ∧
    notifyCountOf envC10 0 + 1 ≤ notifyCountOf (computedGetTop 5 0 envC10).2 0 :=
  ⟨rfl, by decide, rfl,
    stale_get_notifies_registered_watchers 5 0 envC10 compC10 rfl (by decide) 0 rfl⟩

end SignalPolyfill
